import Mathlib

/-!
# Verification of devtul-core's scan/filter/tree/ingest engine

A shallow embedding, in Lean 4, of the core of the `devtul-core` repository:

* `src/devtul_core/fs_factory.py` — `FileSystemFactory` with its path filter
  (`_should_ignore`), the two scan strategies (`_scan_standard`, `_scan_git`),
  the recursive model builder (`_build_directory_recursive`) and the ASCII
  tree renderer (`_generate_tree_string` / `to_tree`);
* `src/devtul_core/ingestor.py` — `ingest_scan`;
* `src/devtul_core/db_models.py` / `fs_models.py` — the row shapes and the
  in-memory (Pydantic) file models that the above manipulate.

Modelling conventions:

* Paths are modelled relative to the scan root as `List String` of segments
  (POSIX, case-sensitive; `os.path.normcase` is the identity on Linux).
  The root's own directory name is carried separately where the code needs
  `path.name` of the root itself.
* The filesystem, which the code only touches through `os.walk`, `.exists()`
  and the per-file content inspectors, is an explicit value: the list of
  `os.walk` entries `(relative dirpath, filenames)` (the `dirnames` component
  of the triple is discarded by the source, so it is omitted here).
* Functions whose Python recursion is not structural are given an explicit
  fuel argument that strictly exceeds the recursion depth at every call site,
  keeping every definition executable by the kernel.
* Strings are compared with a hand-rolled code-point comparison equal to
  Python's `str` ordering (the built-in `String` order does not evaluate
  inside the kernel).
-/

/-! ## String helpers (Python `str` / `pathlib` semantics, POSIX) -/

/-- Code-point comparison of char lists: Python's `str` `<` (lexicographic by
Unicode code point, a strict prefix is smaller). -/
def charListLt : List Char → List Char → Bool
  | [], [] => false
  | [], _ :: _ => true
  | _ :: _, [] => false
  | c :: cs, d :: ds =>
    if c.toNat < d.toNat then true
    else if d.toNat < c.toNat then false
    else charListLt cs ds

/-- Python `str` `<` on strings. -/
def pyStrLt (a b : String) : Bool := charListLt a.data b.data

/-- Python `str` `<=` on strings. -/
def pyStrLe (a b : String) : Bool := pyStrLt a b || a == b

/-- Split a char list at every occurrence of `sep` (Python `str.split(sep)`
for a one-character separator: empty pieces are kept, `"".split` is `[""]`). -/
def splitCharsOn (sep : Char) : List Char → List (List Char)
  | [] => [[]]
  | c :: cs =>
    if c == sep then
      [] :: splitCharsOn sep cs
    else
      match splitCharsOn sep cs with
      | [] => [[c]]
      | piece :: rest => (c :: piece) :: rest

/-- Python `s.split(sep)` for a one-character separator. -/
def pySplitOn (sep : Char) (s : String) : List String :=
  (splitCharsOn sep s.data).map String.mk

/-- Join a list of strings with a separator (Python `sep.join(parts)`). -/
def pyJoin (sep : String) : List String → String
  | [] => ""
  | [s] => s
  | s :: rest => s ++ sep ++ pyJoin sep rest

/-- ASCII whitespace recognizer used by `str.strip()` (the source only ever
strips `git ls-files` output, which is ASCII). -/
def isPySpace (c : Char) : Bool :=
  c == ' ' || c == '\t' || c == '\n' || c == '\r' || c == '\x0b' || c == '\x0c'

/-- Python `str.strip()` (no argument): drop whitespace from both ends. -/
def pyStrip (s : String) : String :=
  String.mk (((s.data.dropWhile isPySpace).reverse.dropWhile isPySpace).reverse)

/-- Python `str.splitlines()` restricted to `\n` line boundaries (`git
ls-files` emits `\n`-separated output; a trailing `\r` is removed by the
subsequent `strip()` in the source). Unlike `split`, a trailing newline does
not produce a final empty piece. -/
def pySplitLines (s : String) : List String :=
  match (splitCharsOn '\n' s.data).map String.mk with
  | [] => []
  | pieces =>
    if pieces.getLast? = some "" then pieces.dropLast else pieces

/-- Index of the last occurrence of `c`, if any (Python `str.rfind`). -/
def lastIdxOf (c : Char) : List Char → Option Nat
  | [] => none
  | x :: xs =>
    match lastIdxOf c xs with
    | some i => some (i + 1)
    | none => if x == c then some 0 else none

/-- `pathlib.PurePath.suffix` of a final path component: the substring from
the last `.`, nonempty only when that dot is neither the first nor the last
character of the name (`"a.txt" ↦ ".txt"`, `".gitignore" ↦ ""`,
`"file." ↦ ""`, `"archive.tar.gz" ↦ ".gz"`). -/
def pySuffix (name : String) : String :=
  match lastIdxOf '.' name.data with
  | some i =>
    if 0 < i ∧ i + 1 < name.data.length then String.mk (name.data.drop i) else ""
  | none => ""

/-- `pathlib.PurePosixPath(s).name`: last component after dropping empty and
`"."` components (`"/tmp/root" ↦ "root"`, `"a/b/" ↦ "b"`, `"/" ↦ ""`,
`"" ↦ ""`). -/
def pyPathName (s : String) : String :=
  ((pySplitOn '/' s).filter (fun comp => comp != "" && comp != ".")).getLast?.getD ""

/-! ## `fnmatch.fnmatch` (POSIX: `normcase` is the identity)

Python's `fnmatch` translates the pattern to a regular expression: `*`
matches any sequence (including empty), `?` any single character, `[...]` a
character class with optional leading `!` negation and `a-z` ranges; a `[`
with no closing `]` is a literal `[`; a `]` immediately after `[` or `[!`
belongs to the class. All other characters match literally. -/

/-- One entry of a parsed `[...]` class: a single character or a range. -/
inductive ClassItem where
  | single (c : Char)
  | range (lo hi : Char)
deriving DecidableEq

/-- Split a char list at the first occurrence of `c`; `none` if absent. -/
def splitAtFirst (c : Char) : List Char → Option (List Char × List Char)
  | [] => none
  | x :: xs =>
    if x == c then some ([], xs)
    else
      match splitAtFirst c xs with
      | some (l, r) => some (x :: l, r)
      | none => none

/-- Parse the raw chars of a class body into items; `-` between two
characters denotes a range, a leading or trailing `-` is literal. -/
def parseClassItems : List Char → List ClassItem
  | a :: '-' :: b :: rest => .range a b :: parseClassItems rest
  | a :: rest => .single a :: parseClassItems rest
  | [] => []

/-- Parse a bracket expression given the chars after `[`. Returns the
negation flag, the class items and the pattern remainder after `]`; `none`
when no closing `]` exists (then `[` is literal, as in `fnmatch.translate`). -/
def parseBracket (l : List Char) : Option (Bool × List ClassItem × List Char) :=
  let (neg, l1) := match l with
    | '!' :: t => (true, t)
    | _ => (false, l)
  match l1 with
  | ']' :: t =>
    match splitAtFirst ']' t with
    | some (content, rest) => some (neg, parseClassItems (']' :: content), rest)
    | none => none
  | _ =>
    match splitAtFirst ']' l1 with
    | some (content, rest) => some (neg, parseClassItems content, rest)
    | none => none

/-- Does character `c` match the (possibly negated) class? -/
def matchClass (neg : Bool) (items : List ClassItem) (c : Char) : Bool :=
  let inClass := items.any fun item =>
    match item with
    | .single x => x == c
    | .range lo hi => decide (lo.toNat ≤ c.toNat) && decide (c.toNat ≤ hi.toNat)
  if neg then !inClass else inClass

/-- Fueled glob matcher; every step consumes a pattern or subject character,
so fuel `|pattern| + |subject| + 1` always suffices. -/
def fnmatchAux : Nat → List Char → List Char → Bool
  | 0, _, _ => false
  | fuel + 1, p, s =>
    match p with
    | [] => s.isEmpty
    | '*' :: p1 =>
      fnmatchAux fuel p1 s ||
        (match s with
         | [] => false
         | _ :: s1 => fnmatchAux fuel p s1)
    | '?' :: p1 =>
      (match s with
       | [] => false
       | _ :: s1 => fnmatchAux fuel p1 s1)
    | '[' :: rest =>
      (match parseBracket rest with
       | some (neg, items, p1) =>
         (match s with
          | [] => false
          | c :: s1 => matchClass neg items c && fnmatchAux fuel p1 s1)
       | none =>
         (match s with
          | [] => false
          | c :: s1 => (c == '[') && fnmatchAux fuel rest s1))
    | c :: p1 =>
      (match s with
       | [] => false
       | d :: s1 => (c == d) && fnmatchAux fuel p1 s1)

/-- `fnmatch.fnmatch(name, pattern)` on POSIX. -/
def fnmatch (name pattern : String) : Bool :=
  fnmatchAux (pattern.data.length + name.data.length + 1) pattern.data name.data

/-! ## PathFilter: `FileSystemFactory._should_ignore` (fs_factory.py 131-153)

A path is modelled by its list of segments relative to the scan root
(`path.relative_to(self.root).parts`); since every path handed to the
predicate by the source lies under the root, the `ValueError` fallback branch
of the source is unreachable and is not modelled. `rootName` is the root
directory's own final name, needed because `path.name` of the root itself
(reached when `rel = []`, i.e. for the root directory in `_scan_standard`)
is the root's name, not a relative segment. -/

/-- The `ignore_parts` / `ignore_patterns` configuration of
`FileSystemFactory.__init__`. -/
structure FilterConfig where
  ignore_parts : List String
  ignore_patterns : List String

/-- `path.name` for the path `root / rel`. -/
def pathNameOf (rootName : String) (rel : List String) : String :=
  rel.getLast?.getD rootName

/-- `FileSystemFactory._should_ignore`: first the loop over
`rel_parts` against `ignore_parts`, then the loop over `ignore_patterns`
testing `path.suffix == pattern` and `fnmatch(path.name, pattern)`. -/
def shouldIgnore (cfg : FilterConfig) (rootName : String) (rel : List String) : Bool :=
  if rel.any (fun part => cfg.ignore_parts.contains part) then true
  else
    let name := pathNameOf rootName rel
    let suffix := pySuffix name
    if cfg.ignore_patterns.any (fun pattern => suffix == pattern || fnmatch name pattern) then
      true
    else false

/-- Characterization of `_should_ignore`, shared by the developments below. -/
theorem shouldIgnore_eq_true_iff
    (cfg : FilterConfig) (rootName : String) (rel : List String) :
    shouldIgnore cfg rootName rel = true ↔
      (∃ part ∈ rel, part ∈ cfg.ignore_parts) ∨
      (∃ pat ∈ cfg.ignore_patterns, pySuffix (pathNameOf rootName rel) = pat) ∨
      (∃ pat ∈ cfg.ignore_patterns, fnmatch (pathNameOf rootName rel) pat = true) := by
  constructor
  · intro h
    unfold shouldIgnore at h
    by_cases hA : rel.any (fun part => cfg.ignore_parts.contains part) = true
    · exact Or.inl (by simpa using hA)
    · rw [if_neg hA] at h
      by_cases hB : cfg.ignore_patterns.any (fun pattern =>
          pySuffix (pathNameOf rootName rel) == pattern ||
            fnmatch (pathNameOf rootName rel) pattern) = true
      · rcases (by simpa using hB :
            ∃ pat ∈ cfg.ignore_patterns,
              pySuffix (pathNameOf rootName rel) = pat ∨
                fnmatch (pathNameOf rootName rel) pat = true) with ⟨pat, hmem, hs | hg⟩
        · exact Or.inr (Or.inl ⟨pat, hmem, hs⟩)
        · exact Or.inr (Or.inr ⟨pat, hmem, hg⟩)
      · rw [if_neg hB] at h
        exact absurd h (by simp)
  · intro h
    unfold shouldIgnore
    by_cases hA : rel.any (fun part => cfg.ignore_parts.contains part) = true
    · rw [if_pos hA]
    · rw [if_neg hA]
      rcases h with ⟨part, hmem, hin⟩ | ⟨pat, hmem, hs⟩ | ⟨pat, hmem, hg⟩
      · exact absurd (List.any_eq_true.mpr ⟨part, hmem, by simpa using hin⟩) hA
      · rw [if_pos (List.any_eq_true.mpr ⟨pat, hmem, by simp [hs]⟩)]
      · rw [if_pos (List.any_eq_true.mpr ⟨pat, hmem, by simp [hg]⟩)]

/-- C1: `_should_ignore` returns true iff some relative path segment equals a
member of `ignore_parts`, or the path's final suffix equals some ignore
pattern, or the path's filename glob-matches some ignore pattern; hence a
path is retained iff none of these hold (the negation of this iff). The
predicate is a pure function of the path (its relative segments together with
the root's name) and the configuration — it is a Lean function of exactly
those arguments. -/
theorem shouldIgnore_iff_segment_or_suffix_or_glob
    (cfg : FilterConfig) (rootName : String) (rel : List String) :
    shouldIgnore cfg rootName rel = true ↔
      (∃ part ∈ rel, part ∈ cfg.ignore_parts) ∨
      (∃ pat ∈ cfg.ignore_patterns, pySuffix (pathNameOf rootName rel) = pat) ∨
      (∃ pat ∈ cfg.ignore_patterns, fnmatch (pathNameOf rootName rel) pat = true) :=
  shouldIgnore_eq_true_iff cfg rootName rel

/-! ## Scanner: `_scan_standard`, `_filter`, `_scan_git` (fs_factory.py 77-129)

`os.walk(self.root)` is an external effect; its result is passed in as a
listing of entries `(dirpath relative to the root, filenames)`. The source
discards the `dirnames` component of each `os.walk` triple and never prunes
it, so descent is never stopped: every directory under the root has its own
entry in the listing. -/

/-- One `os.walk` entry: the directory's path relative to the root and the
names of the plain files directly inside it. -/
abbrev WalkEntry := List String × List String

/-- The whole `os.walk` enumeration, in visit order (root first). -/
abbrev WalkListing := List WalkEntry

/-- `FileSystemFactory._scan_standard`: for every walk entry whose directory
is not ignored, every direct file becomes a candidate; ignored directories
only have their *direct* files skipped (`continue`), their subdirectories
still get their own walk entries. -/
def scanStandard (listing : WalkListing) (cfg : FilterConfig) (rootName : String) :
    List (List String) :=
  listing.foldr
    (fun e acc =>
      if shouldIgnore cfg rootName e.1 then acc
      else (e.2.map (fun f => e.1 ++ [f])) ++ acc)
    []

/-- `FileSystemFactory._filter`: keep the paths the filter retains. -/
def filterPaths (cfg : FilterConfig) (rootName : String) (paths : List (List String)) :
    List (List String) :=
  paths.filter (fun p => !shouldIgnore cfg rootName p)

/-- Membership in the standard scan's output. -/
theorem mem_scanStandard
    (listing : WalkListing) (cfg : FilterConfig) (rootName : String) (p : List String) :
    p ∈ scanStandard listing cfg rootName ↔
      ∃ e ∈ listing, shouldIgnore cfg rootName e.1 = false ∧ ∃ f ∈ e.2, p = e.1 ++ [f] := by
  induction listing with
  | nil => simp [scanStandard]
  | cons e rest ih =>
    unfold scanStandard at ih ⊢
    by_cases h : shouldIgnore cfg rootName e.1 = true
    · simp only [List.foldr_cons, h, if_true]
      rw [ih]
      constructor
      · intro ⟨e1, he1, hni, hf⟩
        exact ⟨e1, List.mem_cons_of_mem e he1, hni, hf⟩
      · intro ⟨e1, he1, hni, hf⟩
        rcases List.mem_cons.mp he1 with rfl | hmem
        · rw [h] at hni; cases hni
        · exact ⟨e1, hmem, hni, hf⟩
    · have h' : shouldIgnore cfg rootName e.1 = false := by
        revert h; cases shouldIgnore cfg rootName e.1 <;> simp
      simp only [List.foldr_cons, h', if_false, Bool.false_eq_true, List.mem_append,
        List.mem_map]
      rw [ih]
      constructor
      · intro hc
        rcases hc with ⟨f, hf, rfl⟩ | ⟨e1, he1, hni, hf⟩
        · exact ⟨e, List.mem_cons_self e rest, h', f, hf, rfl⟩
        · exact ⟨e1, List.mem_cons_of_mem e he1, hni, hf⟩
      · intro ⟨e1, he1, hni, f, hf, hp⟩
        rcases List.mem_cons.mp he1 with rfl | hmem
        · exact Or.inl ⟨f, hf, hp.symm⟩
        · exact Or.inr ⟨e1, hmem, hni, f, hf, hp⟩

/-- A path one of whose relative segments lies in `ignore_parts` is ignored. -/
theorem shouldIgnore_of_segment_mem
    (cfg : FilterConfig) (rootName : String) (rel : List String) (seg : String)
    (hseg : seg ∈ rel) (hin : seg ∈ cfg.ignore_parts) :
    shouldIgnore cfg rootName rel = true :=
  (shouldIgnore_eq_true_iff cfg rootName rel).mpr (Or.inl ⟨seg, hseg, hin⟩)

/-- The walk-listing of the filesystem used to refute C2: the root contains a
directory `build.tmp` (excluded by the suffix rule `".tmp"`), which contains
a subdirectory `sub` holding the file `x.py`. -/
def listingC2 : WalkListing :=
  [([], []), (["build.tmp"], []), (["build.tmp", "sub"], ["x.py"])]

/-- The filter configuration used to refute C2: no literal segment names,
one suffix pattern. -/
def cfgC2 : FilterConfig := ⟨[], [".tmp"]⟩

/-- C2 counterexample: the directory `build.tmp` is excluded by the path
filter (its suffix `".tmp"` equals an ignore pattern), yet the file
`build.tmp/sub/x.py`, which lies beneath it, appears in the FULL_WALK
candidate output even after the final filter pass: `_scan_standard` only
skips the *direct* files of an ignored directory and never prunes `os.walk`'s
descent, and the final filter tests only the file's own segments, suffix and
name. -/
theorem scan_descends_into_pattern_ignored_dir :
    shouldIgnore cfgC2 "r" ["build.tmp"] = true ∧
      List.isPrefixOf ["build.tmp"] ["build.tmp", "sub", "x.py"] = true ∧
      ["build.tmp", "sub", "x.py"] ∈
        filterPaths cfgC2 "r" (scanStandard listingC2 cfgC2 "r") := by
  refine ⟨by decide, by decide, ?_⟩
  decide

/-- C2 (amended): the stop-descent guarantee holds for the `ignore_parts`
rule: if a directory `D` is excluded because one of its relative segments is
listed in `ignore_parts`, then no file strictly beneath `D` appears in the
FULL_WALK candidate output, neither before nor after the final filter pass.
(For directories excluded only by a suffix/glob pattern, files at depth ≥ 2
beneath them do appear, as the counterexample shows.) -/
theorem scanStandard_omits_files_below_ignore_part_dir
    (listing : WalkListing) (cfg : FilterConfig) (rootName : String)
    (D f : List String) (seg : String)
    (hseg : seg ∈ D) (hin : seg ∈ cfg.ignore_parts)
    (hpre : List.isPrefixOf D f = true) (hne : D ≠ f) :
    f ∉ scanStandard listing cfg rootName ∧
      f ∉ filterPaths cfg rootName (scanStandard listing cfg rootName) := by
  rcases List.isPrefixOf_iff_prefix.mp hpre with ⟨t, rfl⟩
  have hsegf : seg ∈ D ++ t := List.mem_append_left t hseg
  have hscan : D ++ t ∉ scanStandard listing cfg rootName := by
    intro hmem
    rcases (mem_scanStandard listing cfg rootName (D ++ t)).mp hmem with
      ⟨e, _, hni, f0, _, heq⟩
    -- `D` is a proper prefix of the file path `e.1 ++ [f0]`, so `D` is a
    -- prefix of the directory `e.1`, whence `seg ∈ e.1` and `e.1` is ignored.
    have ht : t ≠ [] := by
      intro h0
      apply hne
      rw [h0, List.append_nil]
    have hlen : D.length + 1 ≤ (D ++ t).length := by
      have : 1 ≤ t.length := by
        cases t with
        | nil => exact absurd rfl ht
        | cons a l => simp
      simp only [List.length_append]
      omega
    have hDe : D <+: e.1 := by
      have hDf : D <+: e.1 ++ [f0] := heq ▸ ⟨t, rfl⟩
      have he1p : e.1 <+: e.1 ++ [f0] := ⟨[f0], rfl⟩
      have hlen2 : D.length ≤ e.1.length := by
        have h3 := heq ▸ hlen
        simp only [List.length_append, List.length_cons, List.length_nil] at h3
        omega
      exact List.prefix_of_prefix_length_le hDf he1p hlen2
    rcases hDe with ⟨u, hu⟩
    have : shouldIgnore cfg rootName e.1 = true :=
      shouldIgnore_of_segment_mem cfg rootName e.1 seg
        (hu ▸ List.mem_append_left u hseg) hin
    rw [this] at hni
    cases hni
  refine ⟨hscan, ?_⟩
  intro hmem
  exact hscan (List.mem_of_mem_filter hmem)

/-- Witness for the amended C2 at a concrete input: with `.venv` in
`ignore_parts`, the file `.venv/sub/lib.py` (listed by the walk) is absent
from the candidate output. -/
theorem scanStandard_omits_files_below_ignore_part_dir_witness :
    [".venv", "sub", "lib.py"] ∉
        scanStandard [([], ["a.txt"]), ([".venv"], []), ([".venv", "sub"], ["lib.py"])]
          ⟨[".venv"], []⟩ "r" ∧
      [".venv", "sub", "lib.py"] ∉
        filterPaths ⟨[".venv"], []⟩ "r"
          (scanStandard [([], ["a.txt"]), ([".venv"], []), ([".venv", "sub"], ["lib.py"])]
            ⟨[".venv"], []⟩ "r") :=
  scanStandard_omits_files_below_ignore_part_dir
    [([], ["a.txt"]), ([".venv"], []), ([".venv", "sub"], ["lib.py"])]
    ⟨[".venv"], []⟩ "r" [".venv"] [".venv", "sub", "lib.py"] ".venv"
    (by decide) (by decide) (by decide) (by decide)

/-! ## TRACKED mode: `_scan_git` (fs_factory.py 95-122)

The external `git ls-files` subprocess is an input: either it fails with a
non-zero exit status (`subprocess.CalledProcessError`, since `check=True`) or
it produces a stdout string. `(self.root / ".git").exists()` and the
per-path `full_path.exists()` checks are answered by the walk listing: a path
exists iff it is some listed directory or a direct file of one. -/

/-- Outcome of the `git ls-files` subprocess call. -/
inductive GitQueryResult where
  | failed
  | output (stdout : String)

/-- `Path.exists()` relative to the root, answered by the walk listing. -/
def fsExistsPath (listing : WalkListing) (q : List String) : Bool :=
  listing.any (fun e => e.1 == q || e.2.any (fun f => (e.1 ++ [f]) == q))

/-- `[f.strip() for f in result.stdout.splitlines() if f.strip()]`. -/
def gitLsFiles (stdout : String) : List String :=
  ((pySplitLines stdout).map pyStrip).filter (fun f => f != "")

/-- `FileSystemFactory._scan_git`: no `.git` under the root → fall back to
the standard scan; subprocess failure → empty list; otherwise keep each
reported relative path that still exists on disk. -/
def scanGit (listing : WalkListing) (git : GitQueryResult) (cfg : FilterConfig)
    (rootName : String) : List (List String) :=
  if !fsExistsPath listing [".git"] then
    scanStandard listing cfg rootName
  else
    match git with
    | .failed => []
    | .output out =>
      ((gitLsFiles out).map (fun f => pySplitOn '/' f)).filter
        (fun p => fsExistsPath listing p)

/-- C7: in TRACKED mode, (1) with no version-control metadata at the root the
scanner degrades non-fatally to the FULL_WALK strategy and returns its
result; (2) if the external query process exits non-zero, the scanner
returns the empty candidate set instead of raising; (3) every path the query
returns that does not exist on disk is silently dropped from the candidate
set. -/
theorem scanGit_fallback_failure_and_stale_paths
    (listing : WalkListing) (git : GitQueryResult) (cfg : FilterConfig)
    (rootName : String) :
    (fsExistsPath listing [".git"] = false →
      scanGit listing git cfg rootName = scanStandard listing cfg rootName) ∧
    (fsExistsPath listing [".git"] = true →
      scanGit listing .failed cfg rootName = []) ∧
    (fsExistsPath listing [".git"] = true →
      ∀ out f, f ∈ gitLsFiles out → fsExistsPath listing (pySplitOn '/' f) = false →
        pySplitOn '/' f ∉ scanGit listing (.output out) cfg rootName) := by
  refine ⟨?_, ?_, ?_⟩
  · intro h
    unfold scanGit
    rw [h]
    simp
  · intro h
    unfold scanGit
    rw [h]
    simp
  · intro h out f _ hgone hmem
    unfold scanGit at hmem
    rw [h] at hmem
    simp only [Bool.not_true, Bool.false_eq_true, if_false] at hmem
    have := List.of_mem_filter hmem
    rw [hgone] at this
    cases this

/-- Witness for C7 at concrete inputs: a root without `.git` falls back to
the standard scan; with `.git` present, a failed query yields `[]` and a
reported-but-deleted file `gone.txt` is dropped. -/
theorem scanGit_fallback_failure_and_stale_paths_witness :
    (scanGit [([], ["a.txt"])] .failed ⟨[], []⟩ "r" =
      scanStandard [([], ["a.txt"])] ⟨[], []⟩ "r") ∧
    (scanGit [([], ["a.txt"]), ([".git"], [])] .failed ⟨[], []⟩ "r" = []) ∧
    (pySplitOn '/' "gone.txt" ∉
      scanGit [([], ["a.txt"]), ([".git"], [])] (.output "gone.txt\n") ⟨[], []⟩ "r") := by
  refine ⟨?_, ?_, ?_⟩
  · exact (scanGit_fallback_failure_and_stale_paths [([], ["a.txt"])] .failed ⟨[], []⟩ "r").1
      (by decide)
  · exact (scanGit_fallback_failure_and_stale_paths [([], ["a.txt"]), ([".git"], [])]
      .failed ⟨[], []⟩ "r").2.1 (by decide)
  · exact (scanGit_fallback_failure_and_stale_paths [([], ["a.txt"]), ([".git"], [])]
      .failed ⟨[], []⟩ "r").2.2 (by decide) "gone.txt\n" "gone.txt" (by decide) (by decide)

/-! ## TreeBuilder: `_build_directory_recursive` (fs_factory.py 155-197)

The builder consumes the flat candidate path list (paths relative to the
root) and the content-inspection collaborators `get_file_stat_model` /
`get_file_sha256` (modelled as fallible oracles, `Except Unit` standing for
"raises an exception") and the pure path decomposition `get_path_model`.
Per-file inspection failures are caught (`except Exception`) and the file is
skipped; the stat call on the *directory itself* (line 194) is outside any
`try` and so propagates. The Python recursion descends one segment per
level, so any fuel exceeding the longest candidate path length suffices; the
wrapper `buildRoot` supplies such a fuel. -/

/-- Projection of the Pydantic `PathModel` (fs_models.py 106-121) to the
fields the claims inspect; `parts` collapses the absolute root prefix to the
root's final name. -/
structure PyPathModel where
  name : String
  parts : List String
deriving DecidableEq

/-- `get_path_model` (fs_models.py 199-215), a pure decomposition. -/
def getPathModel (rootName : String) (rel : List String) : PyPathModel :=
  { name := pathNameOf rootName rel, parts := rootName :: rel }

/-- `BaseFileModel` (fs_models.py 257-273): sha256 digest, dumped stat
snapshot (kept abstract as a string), decomposed path. -/
structure BaseFileV where
  sha256 : String
  stat_json : String
  path_json : PyPathModel
deriving DecidableEq

/-- `BaseDirectoryModel` (fs_models.py 316-336). -/
inductive DirNode where
  | mk (path_json : PyPathModel) (stat_json : String) (files : List BaseFileV)
      (directories : List DirNode)

/-- `path_json` of a directory node. -/
def DirNode.pathJ : DirNode → PyPathModel
  | .mk p _ _ _ => p

/-- `files` of a directory node. -/
def DirNode.filesOf : DirNode → List BaseFileV
  | .mk _ _ fs _ => fs

/-- `directories` of a directory node. -/
def DirNode.dirsOf : DirNode → List DirNode
  | .mk _ _ _ ds => ds

/-- The fallible content-inspection collaborators (`get_file_stat_model`
performs `os.stat`, `get_file_sha256` reads the file; either may raise). -/
structure ContentInspector where
  statOf : List String → Except Unit String
  shaOf : List String → Except Unit String

/-- `rel = p.relative_to(current_path)`; `some rel.parts[0]` when
`len(rel.parts) > 1` (a candidate strictly below a direct subdirectory). -/
def childSeg (cur p : List String) : Option String :=
  if List.isPrefixOf cur p then
    match p.drop cur.length with
    | s :: _ :: _ => some s
    | _ => none
  else none

/-- The sorted set `child_dirs_str` of direct subdirectory names that contain
candidate paths (a Python `set` comprehension followed by `sorted`). -/
def childNames (paths : List (List String)) (cur : List String) : List String :=
  List.insertionSort (fun a b => pyStrLe a b = true) ((paths.filterMap (childSeg cur)).dedup)

/-- `direct_files = [p for p in all_paths if p.parent == current_path]`. -/
def directFiles (paths : List (List String)) (cur : List String) : List (List String) :=
  paths.filter (fun p => p != [] && p.dropLast == cur)

/-- The `try` body of the per-file loop (fs_factory.py 175-184): stat, path
decomposition, digest; any exception is caught and the file skipped
(`none`). -/
def processFile (insp : ContentInspector) (rootName : String) (p : List String) :
    Option BaseFileV :=
  match insp.statOf p with
  | .error _ => none
  | .ok stat =>
    let pm := getPathModel rootName p
    match insp.shaOf p with
    | .error _ => none
    | .ok sha => some ⟨sha, stat, pm⟩

/-- Sequence a list of fallible results; the first exception propagates
(mirrors uncaught exceptions escaping the subdirectory loop). -/
def seqExcept : List (Except Unit α) → Except Unit (List α)
  | [] => .ok []
  | .error e :: _ => .error e
  | .ok a :: rest =>
    match seqExcept rest with
    | .error e => .error e
    | .ok as => .ok (a :: as)

/-- `_build_directory_recursive`, fueled. `cur` is the current directory
relative to the root and `paths` the full candidate list, exactly as the
source passes `all_paths` unchanged to every recursive call. -/
def buildDir (insp : ContentInspector) (rootName : String) :
    Nat → List String → List (List String) → Except Unit DirNode
  | 0, _, _ => .error ()
  | fuel + 1, cur, paths =>
    let files := (directFiles paths cur).filterMap (processFile insp rootName)
    match seqExcept ((childNames paths cur).map
        (fun d => buildDir insp rootName fuel (cur ++ [d]) paths)) with
    | .error e => .error e
    | .ok subdirs =>
      match insp.statOf cur with
      | .error e => .error e
      | .ok stat => .ok (.mk (getPathModel rootName cur) stat files subdirs)

/-- `_build_directory_recursive(self.root, ...)`: descent adds one segment
per level, so the longest candidate path length bounds the recursion depth. -/
def buildRoot (insp : ContentInspector) (rootName : String)
    (paths : List (List String)) : Except Unit DirNode :=
  buildDir insp rootName ((paths.map List.length).foldr Nat.max 0 + 1) [] paths

/-- Python `sorted(paths)` on `Path` objects compares the full path strings;
under a common root this is comparison of the `/`-joined relative paths. -/
def pySortPaths (paths : List (List String)) : List (List String) :=
  List.insertionSort (fun a b => pyStrLe (pyJoin "/" a) (pyJoin "/" b) = true) paths

/-- `FileSystemFactory.build()` steps 1-3: scan, filter, sort, construct. -/
def factoryBuild (listing : WalkListing) (insp : ContentInspector)
    (cfg : FilterConfig) (rootName : String) : Except Unit DirNode :=
  buildRoot insp rootName
    (pySortPaths (filterPaths cfg rootName (scanStandard listing cfg rootName)))

/-- Navigate the built tree by directory names (children are identified by
the `name` field of their `path_json`, which the builder sets from the
directory's final segment). -/
def lookupDir : DirNode → List String → Option DirNode
  | n, [] => some n
  | n, s :: rest =>
    match (DirNode.dirsOf n).find? (fun d => (DirNode.pathJ d).name == s) with
    | some child => lookupDir child rest
    | none => none

/-- `lookupDir` applied to a build result (`none` when the build raised). -/
def exceptLookup (r : Except Unit DirNode) (d : List String) : Option DirNode :=
  match r with
  | .ok tr => lookupDir tr d
  | .error _ => none

/-- Does the node at relative directory `d` of a build result carry the given
file entry? -/
def hasFileEntry (r : Except Unit DirNode) (d : List String) (e : BaseFileV) : Bool :=
  match exceptLookup r d with
  | some n => decide (e ∈ DirNode.filesOf n)
  | none => false

/-- Sequencing a mapped list succeeds exactly pointwise. -/
theorem seqExcept_map_ok {α β : Type} (f : α → Except Unit β) :
    ∀ (ns : List α) (cs : List β), seqExcept (ns.map f) = .ok cs →
      List.Forall₂ (fun n c => f n = .ok c) ns cs := by
  intro ns
  induction ns with
  | nil =>
    intro cs h
    simp only [List.map_nil, seqExcept] at h
    injection h with h'
    subst h'
    exact List.Forall₂.nil
  | cons n rest ih =>
    intro cs h
    rw [List.map_cons] at h
    rcases hf : f n with e | a
    · rw [hf] at h
      simp [seqExcept] at h
    · rw [hf] at h
      rcases hs : seqExcept (rest.map f) with e | as
      · unfold seqExcept at h
        rw [hs] at h
        simp at h
      · unfold seqExcept at h
        rw [hs] at h
        simp only [Except.ok.injEq] at h
        subst h
        exact List.Forall₂.cons hf (ih as hs)

/-- Inversion of one successful `buildDir` step. -/
theorem buildDir_ok_inv (insp : ContentInspector) (rootName : String)
    (fuel : Nat) (cur : List String) (paths : List (List String)) (tr : DirNode)
    (h : buildDir insp rootName (fuel + 1) cur paths = .ok tr) :
    ∃ subdirs stat,
      seqExcept ((childNames paths cur).map
        (fun d => buildDir insp rootName fuel (cur ++ [d]) paths)) = .ok subdirs ∧
      insp.statOf cur = .ok stat ∧
      tr = .mk (getPathModel rootName cur) stat
        ((directFiles paths cur).filterMap (processFile insp rootName)) subdirs := by
  unfold buildDir at h
  rcases hseq : seqExcept ((childNames paths cur).map
      (fun d => buildDir insp rootName fuel (cur ++ [d]) paths)) with e | subdirs
  · rw [hseq] at h
    simp at h
  · rw [hseq] at h
    rcases hstat : insp.statOf cur with e | stat
    · rw [hstat] at h
      simp at h
    · rw [hstat] at h
      simp only [Except.ok.injEq] at h
      exact ⟨subdirs, stat, rfl, rfl, h.symm⟩

/-- A successfully built node carries the path model of its directory. -/
theorem buildDir_ok_pathJ (insp : ContentInspector) (rootName : String) :
    ∀ (fuel : Nat) (cur : List String) (paths : List (List String)) (tr : DirNode),
      buildDir insp rootName fuel cur paths = .ok tr →
      DirNode.pathJ tr = getPathModel rootName cur := by
  intro fuel cur paths tr h
  cases fuel with
  | zero => simp [buildDir] at h
  | succ k =>
    rcases buildDir_ok_inv insp rootName k cur paths tr h with ⟨subdirs, stat, _, _, rfl⟩
    rfl

/-- The children of a successfully built node. -/
theorem buildDir_ok_dirs (insp : ContentInspector) (rootName : String)
    (fuel : Nat) (cur : List String) (paths : List (List String)) (tr : DirNode)
    (h : buildDir insp rootName (fuel + 1) cur paths = .ok tr) :
    List.Forall₂ (fun n c => buildDir insp rootName fuel (cur ++ [n]) paths = .ok c)
      (childNames paths cur) (DirNode.dirsOf tr) := by
  rcases buildDir_ok_inv insp rootName fuel cur paths tr h with ⟨subdirs, stat, hseq, _, rfl⟩
  exact seqExcept_map_ok _ _ _ hseq

/-- The files of a successfully built node. -/
theorem buildDir_ok_files (insp : ContentInspector) (rootName : String)
    (fuel : Nat) (cur : List String) (paths : List (List String)) (tr : DirNode)
    (h : buildDir insp rootName (fuel + 1) cur paths = .ok tr) :
    DirNode.filesOf tr = (directFiles paths cur).filterMap (processFile insp rootName) := by
  rcases buildDir_ok_inv insp rootName fuel cur paths tr h with ⟨subdirs, stat, _, _, rfl⟩
  rfl

/-- The final path segment names a directory under the root. -/
theorem pathNameOf_concat (rootName : String) (cur : List String) (n : String) :
    pathNameOf rootName (cur ++ [n]) = n := by
  unfold pathNameOf
  rw [List.getLast?_concat]
  rfl

/-- `child_dirs_str` contains no duplicates. -/
theorem childNames_nodup (paths : List (List String)) (cur : List String) :
    (childNames paths cur).Nodup :=
  (List.perm_insertionSort _ _).nodup_iff.mpr (List.nodup_dedup _)

/-- Membership in `child_dirs_str`. -/
theorem mem_childNames (paths : List (List String)) (cur : List String) (s : String) :
    s ∈ childNames paths cur ↔ ∃ p ∈ paths, childSeg cur p = some s := by
  unfold childNames
  rw [(List.perm_insertionSort _ _).mem_iff, List.mem_dedup, List.mem_filterMap]

/-- `childSeg` on a path strictly below the child directory `cur ++ [s]`. -/
theorem childSeg_append (cur : List String) (s : String) (rest : List String)
    (h : rest ≠ []) : childSeg cur (cur ++ s :: rest) = some s := by
  unfold childSeg
  rw [if_pos (List.isPrefixOf_iff_prefix.mpr ⟨s :: rest, rfl⟩), List.drop_left]
  cases rest with
  | nil => exact absurd rfl h
  | cons r rs => rfl

/-- Decomposition of a successful `childSeg`. -/
theorem childSeg_some (cur p : List String) (s : String)
    (h : childSeg cur p = some s) : ∃ rest, rest ≠ [] ∧ p = cur ++ s :: rest := by
  unfold childSeg at h
  by_cases hp : List.isPrefixOf cur p = true
  · rw [if_pos hp] at h
    rcases List.isPrefixOf_iff_prefix.mp hp with ⟨t, rfl⟩
    rw [List.drop_left] at h
    match t, h with
    | s0 :: r :: rs, h =>
      injection h with h'
      subst h'
      exact ⟨r :: rs, by simp, rfl⟩
  · rw [if_neg hp] at h
    cases h

/-- From a pointwise-built children list, `find?` by name retrieves exactly
the child built for that name (names are distinct). -/
theorem find_child_of_forall₂ (insp : ContentInspector) (rootName : String)
    (fuel : Nat) (paths : List (List String)) (cur : List String) :
    ∀ (ns : List String) (cs : List DirNode),
      List.Forall₂ (fun n c => buildDir insp rootName fuel (cur ++ [n]) paths = .ok c) ns cs →
      ns.Nodup → ∀ s ∈ ns,
        ∃ child, cs.find? (fun d => (DirNode.pathJ d).name == s) = some child ∧
          buildDir insp rootName fuel (cur ++ [s]) paths = .ok child := by
  intro ns cs hf
  induction hf with
  | nil => intro _ s hs; cases hs
  | @cons n c ns' cs' hnc _ ih =>
    intro hnd s hs
    have hname : (DirNode.pathJ c).name = n := by
      rw [buildDir_ok_pathJ insp rootName fuel (cur ++ [n]) paths c hnc]
      unfold getPathModel
      exact pathNameOf_concat rootName cur n
    rcases List.mem_cons.mp hs with rfl | hs'
    · refine ⟨c, ?_, hnc⟩
      rw [List.find?_cons_of_pos]
      rw [hname]
      exact beq_self_eq_true s
    · have hnd' := List.nodup_cons.mp hnd
      have hne : n ≠ s := fun hEq => hnd'.1 (hEq ▸ hs')
      rcases ih hnd'.2 s hs' with ⟨child, hfind, hbuild⟩
      refine ⟨child, ?_, hbuild⟩
      rw [List.find?_cons_of_neg]
      · exact hfind
      · rw [hname]
        simp [hne]

/-- A `Forall₂` witness on the right has a mate on the left. -/
theorem forall₂_exists_left {α β : Type} {R : α → β → Prop} :
    ∀ {ns : List α} {cs : List β}, List.Forall₂ R ns cs →
      ∀ c ∈ cs, ∃ n ∈ ns, R n c := by
  intro ns cs hf
  induction hf with
  | nil => intro c hc; cases hc
  | @cons n c ns' cs' hnc _ ih =>
    intro c0 hc0
    rcases List.mem_cons.mp hc0 with rfl | hc0'
    · exact ⟨n, List.mem_cons_self n ns', hnc⟩
    · rcases ih c0 hc0' with ⟨n0, hn0, hr⟩
      exact ⟨n0, List.mem_cons_of_mem n hn0, hr⟩

/-- An all-succeeding content inspector. -/
def okInspector : ContentInspector := ⟨fun _ => .ok "stat", fun _ => .ok "sha256"⟩

/-- C3 counterexample: on a filesystem whose walk lists the directory
`empty` (with no files anywhere beneath it) next to the file `a.txt`, with a
configuration that ignores nothing, the directory `empty` is retained by the
path filter, the build succeeds, yet the assembled tree has *no* node for
`empty`: `_build_directory_recursive` derives subdirectories exclusively
from the candidate file paths (its own comment says "Find direct
subdirectories that contain allowed files"), so a retained directory with no
surviving candidate beneath it is pruned, contradicting the claim that it is
still emitted. -/
theorem empty_retained_dir_is_pruned :
    shouldIgnore ⟨[], []⟩ "r" ["empty"] = false ∧
      (factoryBuild [([], ["a.txt"]), (["empty"], [])] okInspector ⟨[], []⟩ "r").isOk = true ∧
      (exceptLookup (factoryBuild [([], ["a.txt"]), (["empty"], [])] okInspector
        ⟨[], []⟩ "r") ["empty"]).isNone = true := by
  refine ⟨by decide, by decide, by decide⟩

/-- C3 (amended): the builder emits a `DirectoryNode` for a non-root
directory `d` exactly when at least one candidate file lies strictly beneath
it; a directory retained by the path filter but with zero surviving candidate
files beneath it is pruned from the assembled tree (the root node itself is
always emitted). This theorem proves the forward half that forces the
amendment: every emitted non-root node has a candidate strictly beneath it. -/
theorem built_nonroot_dir_has_candidate_below :
    ∀ (d : List String) (insp : ContentInspector) (rootName : String) (fuel : Nat)
      (cur : List String) (paths : List (List String)),
      (exceptLookup (buildDir insp rootName fuel cur paths) d).isSome = true →
      d ≠ [] →
      ∃ p ∈ paths, List.isPrefixOf (cur ++ d) p.dropLast = true := by
  intro d
  induction d with
  | nil => intro insp rootName fuel cur paths _ hd; exact absurd rfl hd
  | cons s d' ih =>
    intro insp rootName fuel cur paths hsome _
    rcases hb : buildDir insp rootName fuel cur paths with e | tr
    · rw [hb] at hsome
      simp [exceptLookup] at hsome
    · rw [hb] at hsome
      cases fuel with
      | zero => simp [buildDir] at hb
      | succ k =>
        simp only [exceptLookup, lookupDir] at hsome
        rcases hfind : (DirNode.dirsOf tr).find? (fun d0 => (DirNode.pathJ d0).name == s)
            with _ | child
        · rw [hfind] at hsome
          simp at hsome
        · rw [hfind] at hsome
          have hpred := List.find?_some hfind
          have hchild := List.mem_of_find?_eq_some hfind
          rcases forall₂_exists_left (buildDir_ok_dirs insp rootName k cur paths tr hb)
            child hchild with ⟨n, hn, hbc⟩
          have hname : (DirNode.pathJ child).name = n := by
            rw [buildDir_ok_pathJ insp rootName k (cur ++ [n]) paths child hbc]
            exact pathNameOf_concat rootName cur n
          have hns : n = s := by
            rw [hname] at hpred
            exact beq_iff_eq.mp hpred
          subst hns
          cases d' with
          | nil =>
            rcases (mem_childNames paths cur n).mp hn with ⟨p, hp, hseg⟩
            rcases childSeg_some cur p n hseg with ⟨rest, hrest, rfl⟩
            refine ⟨cur ++ n :: rest, hp, ?_⟩
            rw [List.dropLast_append_cons]
            apply List.isPrefixOf_iff_prefix.mpr
            cases rest with
            | nil => exact absurd rfl hrest
            | cons r rs =>
              refine ⟨List.dropLast (r :: rs), ?_⟩
              simp
          | cons x xs =>
            have hsome' : (exceptLookup (buildDir insp rootName k (cur ++ [n]) paths)
                (x :: xs)).isSome = true := by
              rw [hbc]
              simpa [exceptLookup] using hsome
            rcases ih insp rootName k (cur ++ [n]) paths hsome' (by simp) with ⟨p, hp, hpre⟩
            refine ⟨p, hp, ?_⟩
            rw [List.append_assoc, List.singleton_append] at hpre
            exact hpre

/-- Witness for the amended C3 at a concrete input: the built tree for the
candidate list `[src/main.py]` contains a node for `src`, and the theorem
produces the candidate lying beneath it. -/
theorem built_nonroot_dir_has_candidate_below_witness :
    ∃ p ∈ [["src", "main.py"]],
      List.isPrefixOf ([] ++ ["src"]) (List.dropLast p) = true :=
  built_nonroot_dir_has_candidate_below ["src"] okInspector "r" 3 [] [["src", "main.py"]]
    (by decide) (by decide)

/-- C8: a per-file content-inspection failure (stat or digest raising) is
caught and only skips that file: for every candidate path `cur ++ d ++ [f]`
whose inspections succeed, the successfully built tree contains, at the node
reached by descending `d`, the file entry assembled from exactly those
inspection results — regardless of how the inspectors fail on *other*
files. Together with the witness below (which builds a tree in which one
file's digest raises while the build still succeeds and every other file is
present at its position) this is the claim's guarantee: a per-file failure
never aborts the build and never displaces the remaining files. -/
theorem build_keeps_readable_files :
    ∀ (d : List String) (insp : ContentInspector) (rootName : String) (fuel : Nat)
      (cur : List String) (paths : List (List String)) (fname stat sha : String),
      (buildDir insp rootName fuel cur paths).isOk = true →
      (cur ++ d ++ [fname]) ∈ paths →
      insp.statOf (cur ++ d ++ [fname]) = .ok stat →
      insp.shaOf (cur ++ d ++ [fname]) = .ok sha →
      ∃ node, exceptLookup (buildDir insp rootName fuel cur paths) d = some node ∧
        (⟨sha, stat, getPathModel rootName (cur ++ d ++ [fname])⟩ : BaseFileV) ∈
          DirNode.filesOf node := by
  intro d
  induction d with
  | nil =>
    intro insp rootName fuel cur paths fname stat sha hok hmem hstat hsha
    rcases hb : buildDir insp rootName fuel cur paths with e | tr
    · rw [hb] at hok
      simp [Except.isOk, Except.toBool] at hok
    · cases fuel with
      | zero => simp [buildDir] at hb
      | succ k =>
        refine ⟨tr, by simp [exceptLookup, lookupDir, hb], ?_⟩
        rw [buildDir_ok_files insp rootName k cur paths tr hb]
        apply List.mem_filterMap.mpr
        refine ⟨cur ++ [] ++ [fname], ?_, ?_⟩
        · apply List.mem_filter.mpr
          refine ⟨hmem, ?_⟩
          simp
        · unfold processFile
          rw [hstat, hsha]
  | cons s d' ih =>
    intro insp rootName fuel cur paths fname stat sha hok hmem hstat hsha
    rcases hb : buildDir insp rootName fuel cur paths with e | tr
    · rw [hb] at hok
      simp [Except.isOk, Except.toBool] at hok
    · cases fuel with
      | zero => simp [buildDir] at hb
      | succ k =>
        have hs : s ∈ childNames paths cur := by
          apply (mem_childNames paths cur s).mpr
          refine ⟨cur ++ (s :: d') ++ [fname], hmem, ?_⟩
          have hrw : cur ++ (s :: d') ++ [fname] = cur ++ s :: (d' ++ [fname]) := by
            simp
          rw [hrw]
          exact childSeg_append cur s (d' ++ [fname]) (by simp)
        rcases find_child_of_forall₂ insp rootName k paths cur
            (childNames paths cur) (DirNode.dirsOf tr)
            (buildDir_ok_dirs insp rootName k cur paths tr hb)
            (childNames_nodup paths cur) s hs with ⟨child, hfind, hbc⟩
        have hrw2 : (cur ++ [s]) ++ d' ++ [fname] = cur ++ (s :: d') ++ [fname] := by
          simp
        rcases ih insp rootName k (cur ++ [s]) paths fname stat sha
            (by rw [hbc]; rfl) (by rw [hrw2]; exact hmem)
            (by rw [hrw2]; exact hstat) (by rw [hrw2]; exact hsha) with ⟨node, hlook, hmemf⟩
        refine ⟨node, ?_, by rwa [hrw2] at hmemf⟩
        rw [hbc] at hlook
        simp only [exceptLookup, lookupDir, hb, hfind]
        simpa [exceptLookup] using hlook

/-- The inspector used in the C8 witness: the digest of `bad.txt` raises,
everything else succeeds. -/
def inspC8 : ContentInspector :=
  ⟨fun _ => .ok "st", fun p => if p == ["bad.txt"] then .error () else .ok "sha"⟩

/-- Witness for C8 at a concrete input: with `bad.txt`'s digest raising, the
build still succeeds, `bad.txt` is skipped (no entry at the root node), and
the readable `dir/good.txt` is present at its correct position with its
inspection results. -/
theorem build_keeps_readable_files_witness :
    (buildDir inspC8 "r" 3 [] [["bad.txt"], ["dir", "good.txt"]]).isOk = true ∧
      hasFileEntry (buildDir inspC8 "r" 3 [] [["bad.txt"], ["dir", "good.txt"]]) []
        ⟨"sha", "st", getPathModel "r" ["bad.txt"]⟩ = false ∧
      ∃ node,
        exceptLookup (buildDir inspC8 "r" 3 [] [["bad.txt"], ["dir", "good.txt"]])
          ["dir"] = some node ∧
        (⟨"sha", "st", getPathModel "r" ([] ++ ["dir"] ++ ["good.txt"])⟩ : BaseFileV) ∈
          DirNode.filesOf node :=
  ⟨by decide, by decide,
    build_keeps_readable_files ["dir"] inspC8 "r" 3 [] [["bad.txt"], ["dir", "good.txt"]]
      "good.txt" "st" "sha" (by decide) (by decide) rfl rfl⟩

/-! ## TreeRenderer: `_generate_tree_string` / `to_tree` (fs_factory.py 60-73, 199-254)

The renderer re-splits the `/`-joined relative path strings, folds them into
a nested insertion-ordered dictionary (Python `dict`; the file names of a
node live under the reserved `"__files__"` key, modelled as a separate
field), and renders depth-first: sorted child directories first, then sorted
files, with `├── `/`└── ` entry connectors and `│   `/`    ` continuation
prefixes. The `is_last` parameter of the source's `render_tree` is never
read and is dropped. -/

/-- The nested directory dictionary built by `_generate_tree_string`
(insertion-ordered, like a Python `dict`). -/
inductive TDict where
  | mk (entries : List (String × TDict)) (files : List String)

/-- The subdirectory entries of a dictionary node. -/
def TDict.entries : TDict → List (String × TDict)
  | .mk es _ => es

/-- The `"__files__"` list of a dictionary node. -/
def TDict.filesL : TDict → List String
  | .mk _ fs => fs

/-- The empty dictionary `{}`. -/
def TDict.empty : TDict := .mk [] []

/-- Insert one split relative path: walk the segments, creating nested
dictionaries for directory segments (appended in insertion order) and
appending the final segment to the node's file list. Each step consumes one
segment, so the fuel supplied by `insertPath` always suffices. -/
def insertPathAux : Nat → TDict → List String → TDict
  | 0, td, _ => td
  | fuel + 1, td, parts =>
    match parts with
    | [] => td
    | [f] => .mk td.entries (td.filesL ++ [f])
    | p :: rest =>
      if (td.entries.lookup p).isSome then
        .mk (td.entries.map (fun e =>
          if e.1 == p then (e.1, insertPathAux fuel e.2 rest) else e)) td.filesL
      else
        .mk (td.entries ++ [(p, insertPathAux fuel (.mk [] []) rest)]) td.filesL

/-- Insert one split relative path (adequately fueled). -/
def insertPath (td : TDict) (parts : List String) : TDict :=
  insertPathAux (parts.length + 1) td parts

/-- `render_tree`: directories (sorted by name) before files (sorted), the
last item at a level getting the closing corner and a blank continuation
prefix. Fuel bounds the nesting depth. -/
def renderTree : Nat → TDict → String → List String
  | 0, _, _ => []
  | fuel + 1, node, prefx =>
    let dirs := List.insertionSort (fun a b => pyStrLe a.1 b.1 = true) node.entries
    let files := List.insertionSort (fun a b => pyStrLe a b = true) node.filesL
    let n := dirs.length + files.length
    let dirLines := dirs.enum.map fun pr =>
      let isLast := pr.1 == n - 1
      let symbol := if isLast then "└── " else "├── "
      (prefx ++ symbol ++ pr.2.1 ++ "/") ::
        renderTree fuel pr.2.2 (prefx ++ (if isLast then "    " else "│   "))
    let fileLines := files.enum.map fun pr =>
      let isLast := pr.1 + dirs.length == n - 1
      let symbol := if isLast then "└── " else "├── "
      [prefx ++ symbol ++ pr.2]
    (dirLines ++ fileLines).flatten

/-- `_generate_tree_string`: empty input yields the empty string; otherwise
the root line `"<name>/"` followed by the rendered entries, joined with
newlines. The dictionary's nesting depth is strictly less than the longest
split path, so that length bounds the render fuel. -/
def generateTreeString (rootName : String) (relPaths : List String) : String :=
  if relPaths.isEmpty then ""
  else
    let sortedPaths := List.insertionSort (fun a b => pyStrLe a b = true) relPaths
    let treeDict := sortedPaths.foldl (fun td fp => insertPath td (pySplitOn '/' fp)) TDict.empty
    let fuel := (relPaths.map (fun s => (pySplitOn '/' s).length)).foldr Nat.max 0 + 1
    pyJoin "\n" ((rootName ++ "/") :: renderTree fuel treeDict "")

/-- `FileSystemFactory.to_tree()`: build the gathered (scanned, filtered,
sorted) path list and render the `/`-joined relative paths. -/
def toTree (listing : WalkListing) (cfg : FilterConfig) (rootName : String) : String :=
  let gathered := pySortPaths (filterPaths cfg rootName (scanStandard listing cfg rootName))
  generateTreeString rootName (gathered.map (pyJoin "/"))

/-- C10: a scan whose post-filter candidate set is empty renders as the empty
string — the root line `"<name>/"` of non-empty scans is not emitted. -/
theorem toTree_empty_candidates
    (listing : WalkListing) (cfg : FilterConfig) (rootName : String)
    (h : filterPaths cfg rootName (scanStandard listing cfg rootName) = []) :
    toTree listing cfg rootName = "" := by
  unfold toTree
  rw [h]
  rfl

/-- Witness for C10 at a concrete input: an empty walk listing has an empty
post-filter candidate set and an empty rendering. -/
theorem toTree_empty_candidates_witness :
    toTree [] ⟨[], []⟩ "r" = "" :=
  toTree_empty_candidates [] ⟨[], []⟩ "r" rfl

/-! ## Default ignore rules (constants.py 11-155) -/

/-- `IGNORE_PARTS` (constants.py 11-113), verbatim. -/
def IGNORE_PARTS : List String :=
  [".hg", ".svn", "node_modules", "__pycache__", ".idea", ".tox", ".pytest_cache",
   ".mypy_cache", ".ipynb_checkpoints", ".eggs", "logs", "tmp", "temp", "cache",
   "bin", "obj", "out", "AppData", "Local", "Roaming", ".anaconda", ".devcontainer",
   ".aider", ".aitk", ".android", ".gradle", ".astropy", ".aws", ".azure", ".cache",
   ".cargo", ".chocolatey", ".codium", ".continuum", ".cursor", ".dbclient",
   ".ddl_mappings", ".dev", ".docker", ".dotnet", ".embedchain", ".gnupg",
   ".ipython", ".jdks", ".kivy", ".llama", ".local", ".m2", ".matplotlib",
   ".nuget", ".ollama", ".pki", ".pyenv", ".pylint.d", ".pypoetry", ".python-eggs",
   ".shiv", ".slack", ".ssh", ".streamlit", ".swarm_ui", ".spyder-py3",
   ".templateengine", ".testEmbedding", ".torrent_bak", ".u2net", ".ubuntu",
   ".vagrant", ".virtualenvs", ".vsts", ".wallaby", ".winget_portable_root",
   ".winget", ".zenmap", ".zsh_history", ".zshrc", "bower_components", ".vscode",
   ".venv", "venv", "env", "site-packages", "dist", "build", "pip-wheel-metadata",
   ".egg-info", ".eggs", ".log", ".tmp", "3D Objects", "Contacts", "Scans",
   "Saved Games", "Searches", "pipx", "StreamBooth", ".mypy_cache*", ".mypy.ini",
   "packages", "uv.lock", ".python-version"]

/-- `IGNORE_EXTENSIONS` (constants.py 115-155), verbatim. -/
def IGNORE_EXTENSIONS : List String :=
  [".pyc", ".pyo", ".db", ".sqlite", ".log", ".DS_Store", ".lock", ".dll", ".exe",
   ".lnk", "Thumbs.db", ".tmp", ".bak", ".swp", ".pyd", ".egg", ".egg-info",
   ".pkl", ".pickle", ".so", ".dylib", ".o", ".a", ".lib", ".obj", ".class",
   ".jar", ".war", ".ear", ".zip", ".tar", ".tar.gz", ".tgz", ".gz", ".bz2",
   ".xz", ".7z", ".rar", ".iso"]

/-- The default filter configuration installed by `FileSystemFactory.__init__`
when no overrides are given. -/
def defaultConfig : FilterConfig := ⟨IGNORE_PARTS, IGNORE_EXTENSIONS⟩

/-- The walk listing of the C9 example filesystem: files `a.txt`,
`ignored.pyc`, `src/main.py`, `src/utils/helper.py`, `.venv/lib.py`. -/
def listingC9 : WalkListing :=
  [([], ["a.txt", "ignored.pyc"]),
   ([".venv"], ["lib.py"]),
   (["src"], ["main.py"]),
   (["src", "utils"], ["helper.py"])]

/-- C9: under the default ignore rules the surviving relative path set of the
example filesystem is exactly `{a.txt, src/main.py, src/utils/helper.py}`
(`ignored.pyc` falls to the `.pyc` suffix rule, `.venv/lib.py` to the
`.venv` ignore-part), and `to_tree()` returns exactly the expected rendering:
root name with `/`, directories sorted before files at each level, `├── `
and `└── ` entry connectors with the closing corner on the last sibling,
`│   `/`    ` continuation prefixes, and a `/` suffix on directory lines. -/
theorem toTree_default_example :
    pySortPaths (filterPaths defaultConfig "<root>"
        (scanStandard listingC9 defaultConfig "<root>")) =
      [["a.txt"], ["src", "main.py"], ["src", "utils", "helper.py"]] ∧
    toTree listingC9 defaultConfig "<root>" =
      "<root>/\n├── src/\n│   ├── utils/\n│   │   └── helper.py\n│   └── main.py\n└── a.txt" := by
  refine ⟨by decide, ?_⟩
  decide

/-! ## SnapshotStore: `ingest_scan` (ingestor.py 21-99) over the SQLAlchemy
models (db_models.py)

The session/database is an explicit `Store` value. `session.commit()` at the
end of `ingest_scan` corresponds to returning the updated store; an exception
raised before the commit leaves every *persisted* row unchanged (the open
transaction is never committed), which the `Except.error` result models by
carrying no store. Dumped Pydantic payloads (`path_json`, `stat_json`,
`lines_json`, `exif_data`) are opaque strings, since the ingestor only
forwards `model_dump()` results. Row ids autoincrement from 1. -/

/-- The in-memory (Pydantic) file models handed to `ingest_scan`
(fs_models.py 257-313), dispatched by `isinstance`. The image variant's
optional-thumbnail field is spelled `thubnail_b64_data`, exactly as the
Pydantic model declares it (fs_models.py 299). -/
inductive PyFile where
  | base (sha256 : String) (stat_json : String) (path_json : String)
  | text (sha256 : String) (stat_json : String) (path_json : String)
      (content : String) (lines_json : String)
  | image (sha256 : String) (stat_json : String) (path_json : String)
      (b64_data : String) (thubnail_b64_data : Option String)
      (exif_data : String) (fmt : Option String)
deriving DecidableEq

mutual
/-- `BaseDirectoryModel` as consumed by the ingestor: dumped path/stat
payloads, files, subdirectories. -/
inductive PyDirModel where
  | mk (path_json : String) (stat_json : String) (files : List PyFile)
      (directories : PyDirList)
/-- The subdirectory list (a separate inductive so that the ingest recursion
is mutual-structural and kernel-executable). -/
inductive PyDirList where
  | nil
  | cons (d : PyDirModel) (ds : PyDirList)
end

/-- Exceptions `ingest_scan` can raise. -/
inductive PyExc where
  | valueError
  | attributeError
  | unboundLocalError
deriving DecidableEq

/-- A `repositories` row (db_models.py 15-25). -/
structure RepoRow where
  id : Nat
  name : String
  path : String
deriving DecidableEq

/-- A `folders` row (db_models.py 28-38). -/
structure FolderRow where
  id : Nat
  name : String
  path : String
deriving DecidableEq

/-- A `snapshots` row with its polymorphic discriminator
(`"repo_snapshot"` or `"folder_snapshot"`) and the owning identity's id
(db_models.py 44-102). -/
structure SnapshotRow where
  id : Nat
  type : String
  parent_id : Nat
deriving DecidableEq

/-- The variant-specific columns of a file row: none for the base `files`
table, `text_files` adds content and the line index, `image_files` adds
format, payload, optional thumbnail and metadata (db_models.py 108-160). -/
inductive FileVariantCols where
  | base
  | text (content : String) (lines_json : String)
  | image (fmt : Option String) (b64_data : String)
      (thumbnail_b64_data : Option String) (exif_data : String)
deriving DecidableEq

/-- A persisted `FileRecord`: common columns (snapshot id, polymorphic
discriminator, sha256, dumped path/stat) plus its variant's columns. -/
structure FileRow where
  snapshot_id : Nat
  type : String
  sha256 : String
  path_json : String
  stat_json : String
  extra : FileVariantCols
deriving DecidableEq

/-- The persisted database state. -/
structure Store where
  repositories : List RepoRow
  folders : List FolderRow
  snapshots : List SnapshotRow
  files : List FileRow
  nextRepoId : Nat
  nextFolderId : Nat
  nextSnapshotId : Nat
deriving DecidableEq

/-- A fresh database. -/
def emptyStore : Store := ⟨[], [], [], [], 1, 1, 1⟩

/-- The field names the Pydantic `ImageFileModel` declares (fs_models.py
293-301, inheriting `BaseFileModel`): note `thubnail_b64_data`. -/
def imageModelFields : List String :=
  ["sha256", "stat_json", "path_json", "b64_data", "thubnail_b64_data",
   "exif_data", "fmt"]

/-- Python truthiness of the optional name arguments: `None` and `""` are
both false (`if folder_name and repo_name`, `if repo_name:`,
`elif folder_name:`). -/
def pyTruthy : Option String → Bool
  | none => false
  | some s => s != ""

/-- The per-file body of `_recurse_save` (ingestor.py 63-91): `isinstance`
dispatch, common columns, then the variant's own columns. The image branch
reads `p_file.thumbnail_b64_data` (line 83); the Pydantic model declares no
field of that name (Pydantic raises `AttributeError` for undeclared
attributes), so the branch raises before constructing its row. The row the
unreachable success path would carry uses the declared field's value. -/
def fileToRow (snapId : Nat) : PyFile → Except PyExc FileRow
  | .text sha stat path content lines =>
    .ok ⟨snapId, "text", sha, path, stat, .text content lines⟩
  | .image sha stat path b64 thub exif fmt =>
    if imageModelFields.contains "thumbnail_b64_data" then
      .ok ⟨snapId, "image", sha, path, stat, .image fmt b64 thub exif⟩
    else
      .error .attributeError
  | .base sha stat path =>
    .ok ⟨snapId, "file", sha, path, stat, .base⟩

/-- The file loop of `_recurse_save`: rows in file order, the first raised
exception propagating. -/
def saveFiles (snapId : Nat) : List PyFile → Except PyExc (List FileRow)
  | [] => .ok []
  | f :: rest =>
    match fileToRow snapId f with
    | .error e => .error e
    | .ok row =>
      match saveFiles snapId rest with
      | .error e => .error e
      | .ok rows => .ok (row :: rows)

mutual
/-- `_recurse_save`: this directory's files, then the subdirectories,
depth-first. -/
def recurseSave (snapId : Nat) : PyDirModel → Except PyExc (List FileRow)
  | .mk _ _ files dirs =>
    match saveFiles snapId files with
    | .error e => .error e
    | .ok rows =>
      match recurseSaveList snapId dirs with
      | .error e => .error e
      | .ok rows2 => .ok (rows ++ rows2)
/-- The subdirectory loop of `_recurse_save`. -/
def recurseSaveList (snapId : Nat) : PyDirList → Except PyExc (List FileRow)
  | .nil => .ok []
  | .cons d ds =>
    match recurseSave snapId d with
    | .error e => .error e
    | .ok r1 =>
      match recurseSaveList snapId ds with
      | .error e => .error e
      | .ok r2 => .ok (r1 ++ r2)
end

/-- `ingest_scan` (ingestor.py 21-99). Selecting both names raises
`ValueError` before the store is consulted; selecting neither defaults the
folder name to `Path(root_path).name`; the repository branch takes
precedence; if neither branch runs (both names falsy after defaulting, which
happens when the root path's final segment is empty), `snapshot` is never
assigned and `return snapshot` raises `UnboundLocalError`. On success the
updated store and the new snapshot id are returned (`session.commit()`). -/
def ingestScan (st : Store) (root_path : String) (dir_model : PyDirModel)
    (repo_name folder_name : Option String) : Except PyExc (Store × Nat) :=
  if pyTruthy folder_name && pyTruthy repo_name then
    .error .valueError
  else
    let folder_name :=
      if !pyTruthy repo_name && !pyTruthy folder_name then some (pyPathName root_path)
      else folder_name
    if pyTruthy repo_name then
      let rn := repo_name.getD ""
      let (st1, repoId) :=
        match st.repositories.find? (fun r => r.name == rn) with
        | some r => (st, r.id)
        | none =>
          ({ st with
              repositories := st.repositories ++ [(⟨st.nextRepoId, rn, root_path⟩ : RepoRow)],
              nextRepoId := st.nextRepoId + 1 }, st.nextRepoId)
      let snapId := st1.nextSnapshotId
      let st2 := { st1 with
        snapshots := st1.snapshots ++ [(⟨snapId, "repo_snapshot", repoId⟩ : SnapshotRow)],
        nextSnapshotId := snapId + 1 }
      match recurseSave snapId dir_model with
      | .error e => .error e
      | .ok rows => .ok ({ st2 with files := st2.files ++ rows }, snapId)
    else if pyTruthy folder_name then
      let fn := folder_name.getD ""
      let (st1, folderId) :=
        match st.folders.find? (fun f => f.name == fn) with
        | some f => (st, f.id)
        | none =>
          ({ st with
              folders := st.folders ++ [(⟨st.nextFolderId, fn, root_path⟩ : FolderRow)],
              nextFolderId := st.nextFolderId + 1 }, st.nextFolderId)
      let snapId := st1.nextSnapshotId
      let st2 := { st1 with
        snapshots := st1.snapshots ++ [(⟨snapId, "folder_snapshot", folderId⟩ : SnapshotRow)],
        nextSnapshotId := snapId + 1 }
      match recurseSave snapId dir_model with
      | .error e => .error e
      | .ok rows => .ok ({ st2 with files := st2.files ++ rows }, snapId)
    else
      .error .unboundLocalError

/-- The persisted state after one ingest attempt: an exception propagates
before `session.commit()`, so nothing new is persisted. -/
def ingestAttempt (st : Store) (root_path : String) (dir_model : PyDirModel)
    (repo_name folder_name : Option String) : Store :=
  match ingestScan st root_path dir_model repo_name folder_name with
  | .ok (st', _) => st'
  | .error _ => st

/-- The text file of the ingest test tree (a `TextFileModel`). -/
def txtFileEx : PyFile := .text "hash_text" "stat" "path-readme" "Hello World" "lines"

/-- The image file of the ingest test tree (an `ImageFileModel`; its
thumbnail is stored under the declared field `thubnail_b64_data`). -/
def imgFileEx : PyFile :=
  .image "hash_img" "stat" "path-logo" "fakebase64" (some "thumbbase64") "exif" (some "png")

/-- The generic binary file of the ingest test tree (a bare
`BaseFileModel`). -/
def binFileEx : PyFile := .base "hash_bin" "stat" "path-data"

/-- A tree with exactly one text, one image and one generic file (the shape
of the repository's own `mock_fs_data` test fixture). -/
def treeC4 : PyDirModel :=
  .mk "pj-root" "sj" [txtFileEx] (.cons (.mk "pj-sub" "sj" [imgFileEx, binFileEx] .nil) .nil)

/-- The same tree with the image file removed. -/
def treeNoImg : PyDirModel :=
  .mk "pj-root" "sj" [txtFileEx] (.cons (.mk "pj-sub" "sj" [binFileEx] .nil) .nil)

/-- C4 counterexample: ingesting a tree with one text, one image and one
generic file does not persist three `FileRecord`s — it raises
`AttributeError` (the ingestor reads `p_file.thumbnail_b64_data`,
ingestor.py 83, but the Pydantic image model declares the field as
`thubnail_b64_data`, fs_models.py 299) and the aborted transaction persists
nothing. Moreover even the intended discriminator of the generic variant is
`"file"` (db_models.py 134, asserted by the repository's own test), not
`"generic"` as the claim states. -/
theorem ingest_three_file_tree_raises :
    ingestScan emptyStore "/tmp" treeC4 (some "poly-test") none =
      .error .attributeError ∧
    ingestAttempt emptyStore "/tmp" treeC4 (some "poly-test") none = emptyStore := by
  exact ⟨rfl, rfl⟩

/-- C4 (amended): ingesting the one-text/one-image/one-generic tree raises
`AttributeError` at the image file (field-name mismatch
`thumbnail_b64_data` vs `thubnail_b64_data`) and persists nothing; with the
image file removed, ingest persists exactly two `FileRecord`s whose
discriminators are `text` and `file` (the base variant's discriminator
string is `file`, not `generic`), each carrying only its own variant's
payload columns — the text row additionally content and the line index, the
generic row the common hash/path/stat columns only; had the image access
succeeded, the image row would carry discriminator `image` with the encoded
payload, optional thumbnail, format tag and metadata map. -/
theorem ingest_variant_rows :
    ingestScan emptyStore "/tmp" treeC4 (some "poly-test") none =
      .error .attributeError ∧
    ingestScan emptyStore "/tmp" treeNoImg (some "poly-test") none =
      .ok (⟨[⟨1, "poly-test", "/tmp"⟩], [], [⟨1, "repo_snapshot", 1⟩],
        [⟨1, "text", "hash_text", "path-readme", "stat", .text "Hello World" "lines"⟩,
         ⟨1, "file", "hash_bin", "path-data", "stat", .base⟩],
        2, 1, 2⟩, 1) := by
  exact ⟨rfl, rfl⟩

/-- C5 (evaluation at the failing input): ingesting the fixture tree (which
contains an image file) under the repository name `my-repo` raises
`AttributeError`, so after two ingest attempts the persisted store is
unchanged — zero `RootIdentity` rows and zero `Snapshot` rows instead of the
one and two the claim (and the repository's own
`test_ingest_reuses_existing_repo`) expect. The defect is the
`thumbnail_b64_data`/`thubnail_b64_data` field-name mismatch flagged in the
spec's design notes; the claim matches the intended behaviour. -/
theorem reingest_same_root_fails_on_fixture_tree :
    ingestScan emptyStore "/tmp/root" treeC4 (some "my-repo") none =
      .error .attributeError ∧
    ingestAttempt (ingestAttempt emptyStore "/tmp/root" treeC4 (some "my-repo") none)
      "/tmp/root" treeC4 (some "my-repo") none = emptyStore := by
  exact ⟨rfl, rfl⟩

/-- C6: (1) whenever both a repository name and a folder name are supplied
(truthy, in the source's `if folder_name and repo_name` sense), `ingest_scan`
raises `ValueError` before any database read or write — the result is an
error for *every* store state, with no store returned; (2) whenever the
repository name is absent, supplying no folder name behaves exactly as if a
folder named after the final path segment of the root path had been
selected. -/
theorem ingest_identity_selection
    (st : Store) (root_path : String) (dir_model : PyDirModel)
    (repo_name folder_name : Option String) :
    (pyTruthy repo_name = true → pyTruthy folder_name = true →
      ingestScan st root_path dir_model repo_name folder_name = .error .valueError) ∧
    (pyTruthy repo_name = false →
      ingestScan st root_path dir_model repo_name none =
        ingestScan st root_path dir_model repo_name (some (pyPathName root_path))) := by
  constructor
  · intro h1 h2
    unfold ingestScan
    rw [h1, h2]
    rfl
  · intro h
    unfold ingestScan
    rw [h]
    by_cases hn : pyTruthy (some (pyPathName root_path)) = true
    · simp [pyTruthy, hn]
    · have hn' : pyTruthy (some (pyPathName root_path)) = false := by
        revert hn; cases pyTruthy (some (pyPathName root_path)) <;> simp
      simp [pyTruthy, hn']

/-- Witness for C6 at concrete inputs: supplying both `"a"` and `"b"` raises
`ValueError` on a fresh store; supplying neither name for root
`/tmp/root` behaves as selecting the folder name `root`. -/
theorem ingest_identity_selection_witness :
    ingestScan emptyStore "/tmp/root" treeNoImg (some "a") (some "b") =
      .error .valueError ∧
    ingestScan emptyStore "/tmp/root" treeNoImg none none =
      ingestScan emptyStore "/tmp/root" treeNoImg none (some (pyPathName "/tmp/root")) :=
  ⟨(ingest_identity_selection emptyStore "/tmp/root" treeNoImg (some "a") (some "b")).1
      rfl rfl,
    (ingest_identity_selection emptyStore "/tmp/root" treeNoImg none (some "x")).2 rfl⟩
